import Mathlib

/-!
Verification of the lexical scanning and comment/string-aware pattern-matching
core of the `claude-guardrails` repository (Rust).  Source text is modelled as
a list of byte values (`List Nat`); every definition below is a direct shallow
embedding of the corresponding Rust function, with `while` loops rendered as
structurally recursive functions on an explicit fuel argument that is always
instantiated with an upper bound on the number of iterations (each loop moves
the scan position forward by at least one byte per iteration, so
`length + 1` fuel always suffices; exhausting fuel returns the same value as
the loop-exit branch).
-/

namespace Scanner

/-- Embedding of `StringScanner` from `src/scanner.rs` (the byte slice is
passed separately to the functions).  Rust uses the *end* of the
`template_interp_depth` vector as the stack top; the model uses the list
head as the stack top. -/
structure StringScanner where
  pos : Nat
  in_single_quote : Bool
  in_double_quote : Bool
  in_template : Bool
  in_block_comment : Bool
  in_line_comment : Bool
  template_interp_depth : List Int
deriving DecidableEq, Repr

/-- `StringScanner::new` from `src/scanner.rs`. -/
def new (start : Nat) : StringScanner :=
  ⟨start, false, false, false, false, false, []⟩

/-- `StringScanner::in_non_code_context` from `src/scanner.rs`. -/
def in_non_code_context (s : StringScanner) : Bool :=
  s.in_single_quote || s.in_double_quote || s.in_template ||
    s.in_block_comment || s.in_line_comment || !s.template_interp_depth.isEmpty

/-- The `in_line_comment` early-return block of `StringScanner::advance`
(`src/scanner.rs`, lines 74-80).  Byte values used throughout: 10 = newline,
34 = double quote, 36 = dollar, 39 = single quote, 40/41 = parentheses,
42 = star, 47 = slash, 92 = backslash, 96 = backtick, 123/125 = braces. -/
def line_comment_step (byte : Nat) (s : StringScanner) : StringScanner × Bool :=
  if byte = 10 then ({ s with in_line_comment := false, pos := s.pos + 1 }, true)
  else ({ s with pos := s.pos + 1 }, true)

/-- The `in_block_comment` early-return block of `advance` (lines 82-90). -/
def block_comment_step (byte : Nat) (next : Option Nat) (s : StringScanner) :
    StringScanner × Bool :=
  if byte = 42 ∧ next = some 47 then
    ({ s with in_block_comment := false, pos := s.pos + 2 }, true)
  else ({ s with pos := s.pos + 1 }, true)

/-- The interpolation block of `advance` (lines 92-139), entered when the
depth stack is non-empty; `d :: rest` is that stack.  The `expect` on the
stack top in Rust is rendered by the caller matching on the stack, so the
panic is unreachable. -/
def interp_step (bytes : List Nat) (byte : Nat) (d : Int) (rest : List Int)
    (s : StringScanner) : StringScanner × Bool :=
  if (s.in_single_quote || s.in_double_quote) ∧ byte = 92 ∧ s.pos + 1 < bytes.length then
    ({ s with pos := s.pos + 2 }, true)
  else if s.in_single_quote then
    if byte = 39 then ({ s with in_single_quote := false, pos := s.pos + 1 }, true)
    else ({ s with pos := s.pos + 1 }, true)
  else if s.in_double_quote then
    if byte = 34 then ({ s with in_double_quote := false, pos := s.pos + 1 }, true)
    else ({ s with pos := s.pos + 1 }, true)
  else if byte = 123 then
    ({ s with template_interp_depth := (d + 1) :: rest, pos := s.pos + 1 }, true)
  else if byte = 125 then
    if d - 1 = 0 then
      ({ s with template_interp_depth := rest, in_template := true, pos := s.pos + 1 }, true)
    else
      ({ s with template_interp_depth := (d - 1) :: rest, pos := s.pos + 1 }, true)
  else if byte = 39 then ({ s with in_single_quote := true, pos := s.pos + 1 }, true)
  else if byte = 34 then ({ s with in_double_quote := true, pos := s.pos + 1 }, true)
  else if byte = 96 then ({ s with in_template := true, pos := s.pos + 1 }, true)
  else ({ s with pos := s.pos + 1 }, true)

/-- The string-literal block of `advance` (lines 141-166), entered when one
of the string flags is set and the stack is empty. -/
def string_step (bytes : List Nat) (byte : Nat) (next : Option Nat)
    (s : StringScanner) : StringScanner × Bool :=
  if byte = 92 then
    ({ s with pos := s.pos + (if s.pos + 1 < bytes.length then 2 else 1) }, true)
  else if s.in_single_quote ∧ byte = 39 then
    ({ s with in_single_quote := false, pos := s.pos + 1 }, true)
  else if s.in_double_quote ∧ byte = 34 then
    ({ s with in_double_quote := false, pos := s.pos + 1 }, true)
  else if s.in_template ∧ byte = 96 then
    ({ s with in_template := false, pos := s.pos + 1 }, true)
  else if s.in_template ∧ byte = 36 ∧ next = some 123 then
    ({ s with in_template := false, template_interp_depth := [1], pos := s.pos + 2 }, true)
  else ({ s with pos := s.pos + 1 }, true)

/-- The plain-code block of `advance` (lines 168-186). -/
def code_step (byte : Nat) (next : Option Nat) (s : StringScanner) :
    StringScanner × Bool :=
  if byte = 39 then ({ s with in_single_quote := true, pos := s.pos + 1 }, true)
  else if byte = 34 then ({ s with in_double_quote := true, pos := s.pos + 1 }, true)
  else if byte = 96 then ({ s with in_template := true, pos := s.pos + 1 }, true)
  else if byte = 47 ∧ next = some 47 then
    ({ s with in_line_comment := true, pos := s.pos + 2 }, true)
  else if byte = 47 ∧ next = some 42 then
    ({ s with in_block_comment := true, pos := s.pos + 2 }, true)
  else ({ s with pos := s.pos + 1 }, true)

/-- `StringScanner::advance` from `src/scanner.rs`.  Returns the new state and
the Rust boolean return value.  The early-return blocks of the Rust function
are the `*_step` helpers above, dispatched in the same order. -/
def advance (bytes : List Nat) (s : StringScanner) : StringScanner × Bool :=
  if bytes.length ≤ s.pos then (s, false)
  else
    let byte := bytes.getD s.pos 0
    let next := bytes.get? (s.pos + 1)
    if s.in_line_comment then line_comment_step byte s
    else if s.in_block_comment then block_comment_step byte next s
    else
      match s.template_interp_depth with
      | d :: rest => interp_step bytes byte d rest s
      | [] =>
        if s.in_single_quote || s.in_double_quote || s.in_template then
          string_step bytes byte next s
        else code_step byte next s

/-- `n` repeated calls of `advance` (discarding the boolean results), the way
callers of the scanner drive it. -/
def advanceN (bytes : List Nat) : Nat → StringScanner → StringScanner
  | 0, s => s
  | n + 1, s => advanceN bytes n (advance bytes s).1

/-- `build_line_offsets` from `src/scanner.rs`: byte offsets of every newline
character, in increasing order.  (Rust iterates `char_indices`; a newline is a
single byte and never occurs inside a multi-byte UTF-8 sequence, so the byte
offsets collected coincide with this byte-level filter.)
`src/rules/sensitive_logging.rs` contains a verbatim private copy of this
function and of `offset_to_line`; the model shares one definition. -/
def build_line_offsets (bytes : List Nat) : List Nat :=
  (List.range bytes.length).filter (fun i => decide (bytes.getD i 0 = 10))

/-- The classic half-open binary search loop behind Rust's
`slice::binary_search`: `Sum.inl i` models `Ok(i)` (element found at `i`),
`Sum.inr i` models `Err(i)` (insertion point `i`).  For the strictly sorted
slices this program searches, the found index is unique, so any conforming
implementation of `binary_search` returns exactly this value.  Fuel
`length + 1` always suffices since `hi - lo` shrinks every iteration. -/
def binary_search_loop (a : List Nat) (t : Nat) : Nat → Nat → Nat → Sum Nat Nat
  | 0, lo, _ => Sum.inr lo
  | fuel + 1, lo, hi =>
    if lo < hi then
      let mid := (lo + hi) / 2
      let v := a.getD mid 0
      if v < t then binary_search_loop a t fuel (mid + 1) hi
      else if t < v then binary_search_loop a t fuel lo mid
      else Sum.inl mid
    else Sum.inr lo

/-- `offset_to_line` from `src/scanner.rs`: `Ok(idx) | Err(idx) => idx + 1`. -/
def offset_to_line (offsets : List Nat) (offset : Nat) : Nat :=
  match binary_search_loop offsets offset (offsets.length + 1) 0 offsets.length with
  | Sum.inl idx => idx + 1
  | Sum.inr idx => idx + 1

end Scanner

namespace SL

/-- Embedding of the *private* `StringScanner` of
`src/rules/sensitive_logging.rs`.  Unlike the shared scanner it has no
`in_line_comment` flag and no line-comment handling, and its backslash
handling advances by two bytes without a bounds check. -/
structure StringScanner where
  pos : Nat
  in_single_quote : Bool
  in_double_quote : Bool
  in_template : Bool
  in_block_comment : Bool
  template_interp_depth : List Int
deriving DecidableEq, Repr

/-- `StringScanner::new` from `src/rules/sensitive_logging.rs`. -/
def new (start : Nat) : StringScanner :=
  ⟨start, false, false, false, false, []⟩

/-- `StringScanner::in_string_or_comment` from `src/rules/sensitive_logging.rs`. -/
def in_string_or_comment (s : StringScanner) : Bool :=
  s.in_single_quote || s.in_double_quote || s.in_template ||
    s.in_block_comment || !s.template_interp_depth.isEmpty

/-- The `in_block_comment` early-return block of the private `advance`
(`src/rules/sensitive_logging.rs`, lines 73-82). -/
def block_comment_step (byte : Nat) (next : Option Nat) (s : StringScanner) :
    StringScanner × Bool :=
  if byte = 42 ∧ next = some 47 then
    ({ s with in_block_comment := false, pos := s.pos + 2 }, true)
  else ({ s with pos := s.pos + 1 }, true)

/-- The interpolation block of the private `advance` (lines 84-122); unlike
the shared scanner, the backslash escape advances by two without a bounds
check. -/
def interp_step (byte : Nat) (d : Int) (rest : List Int) (s : StringScanner) :
    StringScanner × Bool :=
  if (s.in_single_quote || s.in_double_quote) ∧ byte = 92 then
    ({ s with pos := s.pos + 2 }, true)
  else if s.in_single_quote then
    if byte = 39 then ({ s with in_single_quote := false, pos := s.pos + 1 }, true)
    else ({ s with pos := s.pos + 1 }, true)
  else if s.in_double_quote then
    if byte = 34 then ({ s with in_double_quote := false, pos := s.pos + 1 }, true)
    else ({ s with pos := s.pos + 1 }, true)
  else if byte = 123 then
    ({ s with template_interp_depth := (d + 1) :: rest, pos := s.pos + 1 }, true)
  else if byte = 125 then
    if d - 1 = 0 then
      ({ s with template_interp_depth := rest, in_template := true, pos := s.pos + 1 }, true)
    else
      ({ s with template_interp_depth := (d - 1) :: rest, pos := s.pos + 1 }, true)
  else if byte = 39 then ({ s with in_single_quote := true, pos := s.pos + 1 }, true)
  else if byte = 34 then ({ s with in_double_quote := true, pos := s.pos + 1 }, true)
  else if byte = 96 then ({ s with in_template := true, pos := s.pos + 1 }, true)
  else ({ s with pos := s.pos + 1 }, true)

/-- The string-literal block of the private `advance` (lines 124-146); the
backslash escape advances by two without a bounds check. -/
def string_step (byte : Nat) (next : Option Nat) (s : StringScanner) :
    StringScanner × Bool :=
  if byte = 92 then ({ s with pos := s.pos + 2 }, true)
  else if s.in_single_quote ∧ byte = 39 then
    ({ s with in_single_quote := false, pos := s.pos + 1 }, true)
  else if s.in_double_quote ∧ byte = 34 then
    ({ s with in_double_quote := false, pos := s.pos + 1 }, true)
  else if s.in_template ∧ byte = 96 then
    ({ s with in_template := false, pos := s.pos + 1 }, true)
  else if s.in_template ∧ byte = 36 ∧ next = some 123 then
    ({ s with in_template := false, template_interp_depth := [1], pos := s.pos + 2 }, true)
  else ({ s with pos := s.pos + 1 }, true)

/-- The plain-code block of the private `advance` (lines 148-162); no line
comments here, only `/*`. -/
def code_step (byte : Nat) (next : Option Nat) (s : StringScanner) :
    StringScanner × Bool :=
  if byte = 39 then ({ s with in_single_quote := true, pos := s.pos + 1 }, true)
  else if byte = 34 then ({ s with in_double_quote := true, pos := s.pos + 1 }, true)
  else if byte = 96 then ({ s with in_template := true, pos := s.pos + 1 }, true)
  else if byte = 47 ∧ next = some 42 then
    ({ s with in_block_comment := true, pos := s.pos + 2 }, true)
  else ({ s with pos := s.pos + 1 }, true)

/-- `StringScanner::advance` from `src/rules/sensitive_logging.rs`,
dispatching to the early-return blocks above in source order. -/
def advance (bytes : List Nat) (s : StringScanner) : StringScanner × Bool :=
  if bytes.length ≤ s.pos then (s, false)
  else
    let byte := bytes.getD s.pos 0
    let next := bytes.get? (s.pos + 1)
    if s.in_block_comment then block_comment_step byte next s
    else
      match s.template_interp_depth with
      | d :: rest => interp_step byte d rest s
      | [] =>
        if s.in_single_quote || s.in_double_quote || s.in_template then
          string_step byte next s
        else code_step byte next s

/-- The `while` loop of `extract_paren_content` from
`src/rules/sensitive_logging.rs`: threads the scanner state and the
parenthesis depth (40 = open paren, 41 = close paren). -/
def extract_loop (bytes : List Nat) : Nat → StringScanner → Int → StringScanner × Int
  | 0, s, depth => (s, depth)
  | fuel + 1, s, depth =>
    if s.pos < bytes.length ∧ 0 < depth then
      let in_context := in_string_or_comment s
      let byte := bytes.get? s.pos
      let s2 := (advance bytes s).1
      if in_context = false then
        if byte = some 40 then extract_loop bytes fuel s2 (depth + 1)
        else if byte = some 41 then extract_loop bytes fuel s2 (depth - 1)
        else extract_loop bytes fuel s2 depth
      else extract_loop bytes fuel s2 depth
    else (s, depth)

/-- `extract_paren_content` from `src/rules/sensitive_logging.rs`.  On success
Rust returns the substring `content[start..scanner.pos - 1]`, modelled as the
corresponding byte sublist. -/
def extract_paren_content (bytes : List Nat) (start : Nat) : Option (List Nat) :=
  let r := extract_loop bytes (bytes.length + 1) (new start) 1
  if r.2 = 0 then some ((bytes.drop start).take (r.1.pos - 1 - start)) else none

/-- `content[..pos].rfind(41 /- newline -/)`-style helper: the Rust expression
`content[..pos].rfind('\n').map(|i| i + 1).unwrap_or(0)` in `is_in_comment`. -/
def rfind_line_start (bytes : List Nat) : Nat → Nat
  | 0 => 0
  | p + 1 => if bytes.getD p 0 = 10 then p + 1 else rfind_line_start bytes p

/-- The `while` loop of `is_in_comment` from `src/rules/sensitive_logging.rs`. -/
def is_in_comment_loop (bytes : List Nat) (pos : Nat) : Nat → StringScanner → Bool
  | 0, s => s.in_block_comment
  | fuel + 1, s =>
    if s.pos < pos then
      if in_string_or_comment s = false ∧ bytes.get? s.pos = some 47 ∧
          (bytes.get? (s.pos + 1) = some 47 ∨ bytes.get? (s.pos + 1) = some 42) then
        true
      else is_in_comment_loop bytes pos fuel (advance bytes s).1
    else s.in_block_comment

/-- `is_in_comment` from `src/rules/sensitive_logging.rs`: scans from the
start of the line containing `pos` with a fresh scanner. -/
def is_in_comment (bytes : List Nat) (pos : Nat) : Bool :=
  is_in_comment_loop bytes pos (pos + 1) (new (rfind_line_start bytes pos))

/-- The inner `while` of the manual line-comment skip in
`extract_code_portions`. -/
def skip_to_newline (bytes : List Nat) : Nat → Nat → Nat
  | 0, pos => pos
  | fuel + 1, pos =>
    if pos < bytes.length ∧ bytes.get? pos ≠ some 10 then
      skip_to_newline bytes fuel (pos + 1)
    else pos

/-- The `while` loop of `extract_code_portions` from
`src/rules/sensitive_logging.rs`.  Rust pushes `b as char` onto a `String`;
the model accumulates the byte values. -/
def extract_code_loop (bytes : List Nat) : Nat → StringScanner → List Nat → List Nat
  | 0, _, code => code
  | fuel + 1, s, code =>
    if s.pos < bytes.length then
      let byte := bytes.get? s.pos
      let in_interpolation := !s.template_interp_depth.isEmpty &&
        !s.in_single_quote && !s.in_double_quote
      let skip := (s.in_single_quote || s.in_double_quote || s.in_template ||
        s.in_block_comment) && !in_interpolation
      if skip = false ∧ in_interpolation = false ∧ byte = some 47 ∧
          bytes.get? (s.pos + 1) = some 47 then
        extract_code_loop bytes fuel
          { s with pos := skip_to_newline bytes (bytes.length + 1) s.pos } code
      else
        let s2 := (advance bytes s).1
        if skip = false then
          match byte with
          | some b => extract_code_loop bytes fuel s2 (code ++ [b])
          | none => extract_code_loop bytes fuel s2 code
        else extract_code_loop bytes fuel s2 code
    else code

/-- `extract_code_portions` from `src/rules/sensitive_logging.rs`. -/
def extract_code_portions (bytes : List Nat) : List Nat :=
  extract_code_loop bytes (bytes.length + 1) (new 0) []

end SL

namespace Re

/-- UTF-8 bytes of an ASCII string literal (all literals below are ASCII). -/
def strBytes (s : String) : List Nat := s.toList.map (fun c => c.toNat)

/-- Whitespace byte, modelling the regex class `\s` (ASCII part; the rule
patterns and the inputs reasoned about are ASCII). -/
def ws_byte (b : Nat) : Bool :=
  decide (b = 32 ∨ b = 9 ∨ b = 10 ∨ b = 13 ∨ b = 11 ∨ b = 12)

/-- Word-constituent byte, modelling the regex class `\w` used by `\b`
(ASCII part). -/
def isWordByte (b : Nat) : Bool :=
  decide ((48 ≤ b ∧ b ≤ 57) ∨ (65 ≤ b ∧ b ≤ 90) ∨ (97 ≤ b ∧ b ≤ 122) ∨ b = 95)

/-- Does `pat` occur in `bytes` starting exactly at index `i`? -/
def isPrefixAt (bytes : List Nat) (i : Nat) (pat : List Nat) : Bool :=
  decide ((bytes.drop i).take pat.length = pat)

/-- Index of the first non-whitespace byte at or after `i` (the greedy `\s*`
of the call patterns: the maximal whitespace run, after which `(` must
follow). -/
def skip_ws (bytes : List Nat) : Nat → Nat → Nat
  | 0, i => i
  | fuel + 1, i =>
    match bytes.get? i with
    | some b => if ws_byte b then skip_ws bytes fuel (i + 1) else i
    | none => i

/-- The method alternation `(log|warn|error|info|debug)` shared by
`RE_CONSOLE_CALL` and `RE_LOGGER_CALL` in `src/rules/sensitive_logging.rs`.
The five names start with distinct letters, so at most one matches at a
given position. -/
def methods : List (List Nat) :=
  [strBytes "log", strBytes "warn", strBytes "error", strBytes "info", strBytes "debug"]

/-- Matches `(log|warn|error|info|debug)\s*\(` at position `j`, returning the
index one past the opening parenthesis (the regex match end). -/
def match_call_tail (bytes : List Nat) (j : Nat) : Option Nat :=
  match methods.find? (fun m => isPrefixAt bytes j m) with
  | some m =>
    let k := skip_ws bytes (bytes.length + 1) (j + m.length)
    if bytes.get? k = some 40 then some (k + 1) else none
  | none => none

/-- `RE_CONSOLE_CALL` (`console\.(log|warn|error|info|debug)\s*\(`) matched at
position `i`, returning the match end. -/
def match_console_at (bytes : List Nat) (i : Nat) : Option Nat :=
  if isPrefixAt bytes i (strBytes "console.") then match_call_tail bytes (i + 8)
  else none

/-- `RE_LOGGER_CALL` (`(logger|log)\.(log|warn|error|info|debug)\s*\(`)
matched at position `i`; the `logger` alternative is preferred, as in the
leftmost-first semantics of the regex crate. -/
def match_logger_at (bytes : List Nat) (i : Nat) : Option Nat :=
  match (if isPrefixAt bytes i (strBytes "logger.") then match_call_tail bytes (i + 7)
         else none) with
  | some e => some e
  | none =>
    if isPrefixAt bytes i (strBytes "log.") then match_call_tail bytes (i + 4)
    else none

/-- `Regex::find_iter`: successive non-overlapping leftmost matches, each
resuming at the previous match end.  Both call patterns match at least nine
bytes, so the scan position strictly increases and fuel `length + 1`
suffices. -/
def find_matches (matchAt : List Nat → Nat → Option Nat) (bytes : List Nat) :
    Nat → Nat → List (Nat × Nat)
  | 0, _ => []
  | fuel + 1, i =>
    if i < bytes.length then
      match matchAt bytes i with
      | some e => (i, e) :: find_matches matchAt bytes fuel e
      | none => find_matches matchAt bytes fuel (i + 1)
    else []

/-- The keyword alternation of `RE_SENSITIVE_KEYWORD` in
`src/rules/sensitive_logging.rs`.  No keyword is a prefix of another, so at
most one matches at a given position. -/
def keywords : List (List Nat) :=
  [strBytes "password", strBytes "secret", strBytes "token", strBytes "apiKey",
   strBytes "api_key", strBytes "credential", strBytes "auth",
   strBytes "private_key", strBytes "privateKey", strBytes "accessToken",
   strBytes "access_token", strBytes "refreshToken", strBytes "refresh_token"]

/-- `RE_SENSITIVE_KEYWORD.is_match`: some keyword occurs with `\b` word
boundaries on both sides (every keyword byte is a word byte, so the
boundaries reduce to the neighbouring bytes being absent or non-word). -/
def sensitive_keyword_found (bytes : List Nat) : Bool :=
  (List.range (bytes.length + 1)).any (fun i =>
    (decide (i = 0) || !isWordByte (bytes.getD (i - 1) 0)) &&
    match (keywords.find? (fun k => isPrefixAt bytes i k)).map (fun k => i + k.length) with
    | some e => decide (e = bytes.length) || !isWordByte (bytes.getD e 0)
    | none => false)

end Re

namespace SL

/-- `contains_sensitive_keyword` from `src/rules/sensitive_logging.rs`. -/
def contains_sensitive_keyword (bytes : List Nat) : Bool :=
  Re.sensitive_keyword_found (extract_code_portions bytes)

end SL

namespace Rules

/-- `Severity` from `src/rules/mod.rs`. -/
inductive Severity where
  | Critical
  | High
  | Medium
  | Low
deriving DecidableEq, Repr

/-- `Violation` from `src/rules/mod.rs`.  Rust stores the line as
`Option<u32>` via `line_num as u32`; the cast is the identity for every input
with fewer than 2^32 lines and is not modelled. -/
structure Violation where
  rule : String
  severity : Severity
  failure : String
  file : String
  line : Option Nat
deriving DecidableEq, Repr

/-- Message of the console arm of the sensitive-logging rule. -/
def msgConsole : String :=
  "Logging sensitive data (password, token, secret). Remove or mask before logging."

/-- Message of the logger arm of the sensitive-logging rule. -/
def msgLogger : String :=
  "Logging sensitive data via logger. Remove or mask before logging."

/-- The `check_match` closure inside `rule()` of
`src/rules/sensitive_logging.rs`.  The state is the pair
(violations so far, reported line numbers); `HashSet::insert` is modelled by
a membership test on the list of reported lines. -/
def check_match (content : List Nat) (line_offsets : List Nat) (file_path msg : String)
    (st : List Violation × List Nat) (m : Nat × Nat) : List Violation × List Nat :=
  if SL.is_in_comment content m.1 then st
  else
    match SL.extract_paren_content content m.2 with
    | some args =>
      if SL.contains_sensitive_keyword args then
        let line_num := Scanner.offset_to_line line_offsets m.1
        if line_num ∈ st.2 then st
        else (st.1 ++ [⟨"sensitive-logging", Severity.High, msg, file_path, some line_num⟩],
              line_num :: st.2)
      else st
    | none => st

/-- The `RE_CONSOLE_CALL.find_iter(content)` match list. -/
def console_matches (content : List Nat) : List (Nat × Nat) :=
  Re.find_matches Re.match_console_at content (content.length + 1) 0

/-- The `RE_LOGGER_CALL.find_iter(content)` match list. -/
def logger_matches (content : List Nat) : List (Nat × Nat) :=
  Re.find_matches Re.match_logger_at content (content.length + 1) 0

/-- The checker closure of `rule()` in `src/rules/sensitive_logging.rs`:
console matches are processed first, then logger matches, sharing the
violation list and the reported-lines set. -/
def sensitive_logging_check (content : List Nat) (file_path : String) : List Violation :=
  let line_offsets := Scanner.build_line_offsets content
  let st1 := (console_matches content).foldl
    (check_match content line_offsets file_path msgConsole) ([], [])
  let st2 := (logger_matches content).foldl
    (check_match content line_offsets file_path msgLogger) st1
  st2.1

/-- `line.trim_start()` (ASCII whitespace; non-ASCII Unicode whitespace is
not modelled). -/
def trim_start (line : List Nat) : List Nat :=
  line.dropWhile (fun b => Re.ws_byte b)

/-- `starts_with_comment` from `src/rules/mod.rs`. -/
def starts_with_comment (line : List Nat) : Bool :=
  let trimmed := trim_start line
  Re.isPrefixAt trimmed 0 (Re.strBytes "//") ||
  Re.isPrefixAt trimmed 0 (Re.strBytes "/*") ||
  Re.isPrefixAt trimmed 0 (Re.strBytes "* ") ||
  decide (trimmed = Re.strBytes "*")

/-- Strip one trailing carriage return (13), as Rust's `lines()` does on
lines that were newline-terminated. -/
def strip_cr (l : List Nat) : List Nat :=
  if l.getLast? = some 13 then l.dropLast else l

/-- `content.lines()` (Rust `str::lines`): split at newlines, strip a
trailing `\r` from newline-terminated lines, final line ending optional.
Each recursive call drops at least one byte, so fuel `length` suffices. -/
def lines_go (bytes : List Nat) : Nat → List Nat → List (List Nat)
  | _, [] => []
  | 0, c => [c]
  | fuel + 1, c =>
    match c.findIdx? (fun b => b == 10) with
    | none => [c]
    | some i => strip_cr (c.take i) :: lines_go bytes fuel (c.drop (i + 1))

/-- `content.lines()` as used by `non_comment_lines` in `src/rules/mod.rs`. -/
def lines (content : List Nat) : List (List Nat) :=
  lines_go content content.length content

/-- `non_comment_lines` from `src/rules/mod.rs`: 1-based line numbers paired
with the non-comment lines. -/
def non_comment_lines (content : List Nat) : List (Nat × List Nat) :=
  ((lines content).enum.filter (fun p => !starts_with_comment p.2)).map
    (fun p => (p.1 + 1, p.2))

/-- `find_non_comment_match` from `src/rules/mod.rs`.  The `Regex` argument
only ever enters through `is_match`, so it is abstracted as a predicate on
the line's bytes. -/
def find_non_comment_match (content : List Nat) (pattern : List Nat → Bool) : Option Nat :=
  ((non_comment_lines content).find? (fun p => pattern p.2)).map (fun p => p.1)

/-- `count_non_comment_matches` from `src/rules/mod.rs`. -/
def count_non_comment_matches (content : List Nat) (pattern : List Nat → Bool) : Nat :=
  ((non_comment_lines content).filter (fun p => pattern p.2)).length

end Rules

namespace Spec

/-- Modelled from the spec (§4.2 Balanced-Delimiter Extractor): the position
of the matching closing parenthesis for a scan starting in state `s` at
nesting depth `depth` — walk the scanner, count nesting only at positions
the scanner reports as *not* in a non-code context, answer the first
code-classified `)` that returns the depth to zero, and report `none`
("not found") if the input ends first.  This is the specification-side
definition that the source-side `SL.extract_paren_content` is compared
against. -/
def matching_close (bytes : List Nat) : Nat → SL.StringScanner → Nat → Option Nat
  | 0, _, _ => none
  | fuel + 1, s, depth =>
    if s.pos < bytes.length then
      if SL.in_string_or_comment s then
        matching_close bytes fuel (SL.advance bytes s).1 depth
      else if bytes.getD s.pos 0 = 40 then
        matching_close bytes fuel (SL.advance bytes s).1 (depth + 1)
      else if bytes.getD s.pos 0 = 41 then
        if depth = 1 then some s.pos
        else matching_close bytes fuel (SL.advance bytes s).1 (depth - 1)
      else matching_close bytes fuel (SL.advance bytes s).1 depth
    else none

/-- The flag discipline claimed for reachable scanner states (spec §3,
"Scanner state" invariant): with an empty interpolation stack at most one of
the five mode flags is set; with a non-empty stack the comment flags are off
and at most one of the non-template flags is set (`in_template` may be held
pending). -/
def scanner_flags_ok (s : Scanner.StringScanner) : Prop :=
  (s.template_interp_depth = [] →
    s.in_single_quote.toNat + s.in_double_quote.toNat + s.in_template.toNat +
      s.in_block_comment.toNat + s.in_line_comment.toNat ≤ 1) ∧
  (s.template_interp_depth ≠ [] →
    s.in_block_comment = false ∧ s.in_line_comment = false ∧
      s.in_single_quote.toNat + s.in_double_quote.toNat +
        s.in_block_comment.toNat + s.in_line_comment.toNat ≤ 1)

end Spec

theorem list_get?_some_lt {l : List Nat} {n b : Nat} (h : l.get? n = some b) :
    n < l.length := by
  by_contra hn
  rw [List.get?_eq_none.mpr (Nat.le_of_not_lt hn)] at h
  cases h

/-- C1: the claim asserts `in_non_code_context()` is false when the
interpolation depth stack is non-empty but no string/comment/template flag is
set.  Counterexample: after scanning the two tokens of `[96, 36, 123, 120]`
(the text starting a template interpolation) the reachable state has all five
flags false and a non-empty stack, yet `in_non_code_context` returns true. -/
theorem claim_C1_counterexample :
    (Scanner.advanceN [96, 36, 123, 120] 2 (Scanner.new 0)).in_single_quote = false ∧
    (Scanner.advanceN [96, 36, 123, 120] 2 (Scanner.new 0)).in_double_quote = false ∧
    (Scanner.advanceN [96, 36, 123, 120] 2 (Scanner.new 0)).in_template = false ∧
    (Scanner.advanceN [96, 36, 123, 120] 2 (Scanner.new 0)).in_block_comment = false ∧
    (Scanner.advanceN [96, 36, 123, 120] 2 (Scanner.new 0)).in_line_comment = false ∧
    (Scanner.advanceN [96, 36, 123, 120] 2 (Scanner.new 0)).template_interp_depth ≠ [] ∧
    ¬ (Scanner.in_non_code_context (Scanner.advanceN [96, 36, 123, 120] 2 (Scanner.new 0)) = false) := by
  decide

/-- C1 (amended): in every state reached by `advance` from a fresh scanner,
`in_non_code_context()` returns false exactly when no string, comment or
template flag is set AND the interpolation depth stack is empty — i.e. it
returns true, not false, for code inside a `${...}` interpolation. -/
theorem claim_C1 (bytes : List Nat) (start n : Nat) :
    Scanner.in_non_code_context (Scanner.advanceN bytes n (Scanner.new start)) = false ↔
      ((Scanner.advanceN bytes n (Scanner.new start)).in_single_quote = false ∧
       (Scanner.advanceN bytes n (Scanner.new start)).in_double_quote = false ∧
       (Scanner.advanceN bytes n (Scanner.new start)).in_template = false ∧
       (Scanner.advanceN bytes n (Scanner.new start)).in_block_comment = false ∧
       (Scanner.advanceN bytes n (Scanner.new start)).in_line_comment = false ∧
       (Scanner.advanceN bytes n (Scanner.new start)).template_interp_depth = []) := by
  simp [Scanner.in_non_code_context, List.isEmpty_iff, and_assoc]

/-- C4: scanning the 15-byte input `[96,36,123,102,110,40,96,36,123,120,125,96,41,125,96]`
(a template literal containing a nested template with its own interpolation)
from a fresh scanner, the interpolation-depth stack goes from non-empty to
empty exactly once over the whole scan, namely at the step consuming offset
13 — the closing brace adjacent to the closing backtick (offset 14) — and
the scan ends at offset 15 with the input fully consumed. -/
theorem claim_C4 :
    ((List.range 14).countP (fun k =>
        !(Scanner.advanceN [96,36,123,102,110,40,96,36,123,120,125,96,41,125,96] k (Scanner.new 0)).template_interp_depth.isEmpty &&
        (Scanner.advanceN [96,36,123,102,110,40,96,36,123,120,125,96,41,125,96] (k+1) (Scanner.new 0)).template_interp_depth.isEmpty) = 1) ∧
    (Scanner.advanceN [96,36,123,102,110,40,96,36,123,120,125,96,41,125,96] 12 (Scanner.new 0)).pos = 13 ∧
    (Scanner.advanceN [96,36,123,102,110,40,96,36,123,120,125,96,41,125,96] 12 (Scanner.new 0)).template_interp_depth ≠ [] ∧
    (Scanner.advanceN [96,36,123,102,110,40,96,36,123,120,125,96,41,125,96] 13 (Scanner.new 0)).template_interp_depth = [] ∧
    ([96,36,123,102,110,40,96,36,123,120,125,96,41,125,96] : List Nat).getD 13 0 = 125 ∧
    ([96,36,123,102,110,40,96,36,123,120,125,96,41,125,96] : List Nat).getD 14 0 = 96 ∧
    (Scanner.advanceN [96,36,123,102,110,40,96,36,123,120,125,96,41,125,96] 14 (Scanner.new 0)).pos = 15 := by
  decide

theorem advance_pos_le (bytes : List Nat) (s : Scanner.StringScanner)
    (h : s.pos ≤ bytes.length) : (Scanner.advance bytes s).1.pos ≤ bytes.length := by
  have hlc : ∀ b t, (Scanner.line_comment_step b t).1.pos = t.pos + 1 := by
    intro b t; unfold Scanner.line_comment_step; split_ifs <;> rfl
  have hbc : ∀ b nx t, (Scanner.block_comment_step b nx t).1.pos = t.pos + 1 ∨
      ((Scanner.block_comment_step b nx t).1.pos = t.pos + 2 ∧ nx = some 47) := by
    intro b nx t; unfold Scanner.block_comment_step; split_ifs with hc
    · exact Or.inr ⟨rfl, hc.2⟩
    · exact Or.inl rfl
  have hin : ∀ b d rest t, (Scanner.interp_step bytes b d rest t).1.pos = t.pos + 1 ∨
      ((Scanner.interp_step bytes b d rest t).1.pos = t.pos + 2 ∧ t.pos + 1 < bytes.length) := by
    intro b d rest t; unfold Scanner.interp_step; split_ifs
    · rename_i h1; exact Or.inr ⟨rfl, h1.2.2⟩
    all_goals exact Or.inl rfl
  have hst : ∀ b nx t, (Scanner.string_step bytes b nx t).1.pos = t.pos + 1 ∨
      ((Scanner.string_step bytes b nx t).1.pos = t.pos + 2 ∧
        (t.pos + 1 < bytes.length ∨ nx = some 123)) := by
    intro b nx t; unfold Scanner.string_step; split_ifs
    · rename_i h92 hlt; exact Or.inr ⟨rfl, Or.inl hlt⟩
    · exact Or.inl rfl
    · exact Or.inl rfl
    · exact Or.inl rfl
    · exact Or.inl rfl
    · rename_i h5; exact Or.inr ⟨rfl, Or.inr h5.2.2⟩
    · exact Or.inl rfl
  have hcs : ∀ b nx t, (Scanner.code_step b nx t).1.pos = t.pos + 1 ∨
      ((Scanner.code_step b nx t).1.pos = t.pos + 2 ∧ (nx = some 47 ∨ nx = some 42)) := by
    intro b nx t; unfold Scanner.code_step; split_ifs
    · exact Or.inl rfl
    · exact Or.inl rfl
    · exact Or.inl rfl
    · rename_i h4; exact Or.inr ⟨rfl, Or.inl h4.2⟩
    · rename_i h5; exact Or.inr ⟨rfl, Or.inr h5.2⟩
    · exact Or.inl rfl
  by_cases hp : bytes.length ≤ s.pos
  · simp only [Scanner.advance, if_pos hp]; exact h
  · have hp2 : s.pos < bytes.length := Nat.lt_of_not_le hp
    have B1 : (Scanner.line_comment_step (bytes.getD s.pos 0) s).1.pos ≤ bytes.length := by
      rw [hlc]; omega
    have B2 : (Scanner.block_comment_step (bytes.getD s.pos 0) (bytes.get? (s.pos + 1)) s).1.pos ≤ bytes.length := by
      rcases hbc (bytes.getD s.pos 0) (bytes.get? (s.pos + 1)) s with h1 | ⟨h1, h2⟩
      · omega
      · have := list_get?_some_lt h2; omega
    have B3 : ∀ d rest, (Scanner.interp_step bytes (bytes.getD s.pos 0) d rest s).1.pos ≤ bytes.length := by
      intro d rest
      rcases hin (bytes.getD s.pos 0) d rest s with h1 | ⟨h1, h2⟩ <;> omega
    have B4 : (Scanner.string_step bytes (bytes.getD s.pos 0) (bytes.get? (s.pos + 1)) s).1.pos ≤ bytes.length := by
      rcases hst (bytes.getD s.pos 0) (bytes.get? (s.pos + 1)) s with h1 | ⟨h1, h2⟩
      · omega
      · rcases h2 with h2 | h2
        · omega
        · have := list_get?_some_lt h2; omega
    have B5 : (Scanner.code_step (bytes.getD s.pos 0) (bytes.get? (s.pos + 1)) s).1.pos ≤ bytes.length := by
      rcases hcs (bytes.getD s.pos 0) (bytes.get? (s.pos + 1)) s with h1 | ⟨h1, h2⟩
      · omega
      · have h3 : s.pos + 1 < bytes.length := by
          rcases h2 with h2 | h2
          · exact list_get?_some_lt h2
          · exact list_get?_some_lt h2
        omega
    rcases hstack : s.template_interp_depth with _ | ⟨d, rest⟩ <;>
      simp only [Scanner.advance, hstack, if_neg hp] <;>
      split_ifs <;>
      first
        | exact B1
        | exact B2
        | exact B3 d rest
        | exact B4
        | exact B5

theorem advance_snd_false_iff (bytes : List Nat) (s : Scanner.StringScanner) :
    (Scanner.advance bytes s).2 = false ↔ bytes.length ≤ s.pos := by
  have hlc : ∀ b t, (Scanner.line_comment_step b t).2 = true := by
    intro b t; unfold Scanner.line_comment_step; split_ifs <;> rfl
  have hbc : ∀ b nx t, (Scanner.block_comment_step b nx t).2 = true := by
    intro b nx t; unfold Scanner.block_comment_step; split_ifs <;> rfl
  have hin : ∀ b d rest t, (Scanner.interp_step bytes b d rest t).2 = true := by
    intro b d rest t; unfold Scanner.interp_step; split_ifs <;> rfl
  have hst : ∀ b nx t, (Scanner.string_step bytes b nx t).2 = true := by
    intro b nx t; unfold Scanner.string_step; split_ifs <;> rfl
  have hcs : ∀ b nx t, (Scanner.code_step b nx t).2 = true := by
    intro b nx t; unfold Scanner.code_step; split_ifs <;> rfl
  by_cases hp : bytes.length ≤ s.pos
  · simp [Scanner.advance, if_pos hp, hp]
  · rcases hstack : s.template_interp_depth with _ | ⟨d, rest⟩ <;>
      simp only [Scanner.advance, hstack, if_neg hp] <;>
      split_ifs <;>
      simp_all [hlc, hbc, hin, hst, hcs]

theorem advanceN_pos_le (bytes : List Nat) (n : Nat) (s : Scanner.StringScanner)
    (h : s.pos ≤ bytes.length) :
    (Scanner.advanceN bytes n s).pos ≤ bytes.length := by
  induction n generalizing s with
  | zero => exact h
  | succ n ih => exact ih _ (advance_pos_le bytes s h)

/-- C8: starting anywhere inside the buffer, repeatedly calling `advance`
never moves the position past the end of the buffer (in particular a
trailing backslash escape advances only to the buffer end), and `advance`
returns false exactly when the position has reached or passed the end; the
state machine is total, so malformed input ends in an open state without
error. -/
theorem claim_C8 (bytes : List Nat) (start n : Nat) (h : start ≤ bytes.length) :
    (Scanner.advanceN bytes n (Scanner.new start)).pos ≤ bytes.length ∧
    ((Scanner.advance bytes (Scanner.advanceN bytes n (Scanner.new start))).2 = false ↔
      bytes.length ≤ (Scanner.advanceN bytes n (Scanner.new start)).pos) :=
  ⟨advanceN_pos_le bytes n (Scanner.new start) h,
   advance_snd_false_iff bytes (Scanner.advanceN bytes n (Scanner.new start))⟩

/-- C8 witness: the concrete unterminated-escape input `[39, 92]` (a quote
then a trailing backslash), scanned two steps from offset 0. -/
theorem claim_C8_witness :
    (Scanner.advanceN [39, 92] 2 (Scanner.new 0)).pos ≤ ([39, 92] : List Nat).length ∧
    ((Scanner.advance [39, 92] (Scanner.advanceN [39, 92] 2 (Scanner.new 0))).2 = false ↔
      ([39, 92] : List Nat).length ≤ (Scanner.advanceN [39, 92] 2 (Scanner.new 0)).pos) :=
  claim_C8 [39, 92] 0 2 (by decide)

theorem flags_lc_step (byte : Nat) (t : Scanner.StringScanner)
    (ht : t.in_line_comment = true) (h : Spec.scanner_flags_ok t) :
    Spec.scanner_flags_ok (Scanner.line_comment_step byte t).1 := by
  rcases t with ⟨pos, sq, dq, tm, bc, lc, stack⟩
  subst ht
  rcases stack with _ | ⟨d, rest⟩
  · have h1 := h.1 rfl
    cases sq <;> cases dq <;> cases tm <;> cases bc <;>
      simp_all [Scanner.line_comment_step, Spec.scanner_flags_ok] <;>
      split_ifs <;> simp_all
  · have h2 := h.2 (by simp)
    simp at h2
  
theorem flags_bc_step (byte : Nat) (nx : Option Nat) (t : Scanner.StringScanner)
    (ht : t.in_block_comment = true) (h : Spec.scanner_flags_ok t) :
    Spec.scanner_flags_ok (Scanner.block_comment_step byte nx t).1 := by
  rcases t with ⟨pos, sq, dq, tm, bc, lc, stack⟩
  subst ht
  rcases stack with _ | ⟨d, rest⟩
  · have h1 := h.1 rfl
    cases sq <;> cases dq <;> cases tm <;> cases lc <;>
      simp_all [Scanner.block_comment_step, Spec.scanner_flags_ok] <;>
      split_ifs <;> simp_all
  · have h2 := h.2 (by simp)
    simp at h2

theorem flags_interp_step (bytes : List Nat) (byte : Nat) (d : Int) (rest : List Int)
    (t : Scanner.StringScanner) (ht : t.template_interp_depth = d :: rest)
    (h : Spec.scanner_flags_ok t) :
    Spec.scanner_flags_ok (Scanner.interp_step bytes byte d rest t).1 := by
  rcases t with ⟨pos, sq, dq, tm, bc, lc, stack⟩
  subst ht
  have h2 := h.2 (by simp)
  obtain ⟨hbc, hlc, hsum⟩ := h2
  simp only at hbc hlc
  subst hbc; subst hlc
  cases sq <;> cases dq <;> cases tm <;>
    simp_all [Scanner.interp_step, Spec.scanner_flags_ok] <;>
    split_ifs <;> simp_all

theorem flags_string_step (bytes : List Nat) (byte : Nat) (nx : Option Nat)
    (t : Scanner.StringScanner) (ht : t.template_interp_depth = [])
    (hf : (t.in_single_quote || t.in_double_quote || t.in_template) = true)
    (hlc : t.in_line_comment = false) (hbc : t.in_block_comment = false)
    (h : Spec.scanner_flags_ok t) :
    Spec.scanner_flags_ok (Scanner.string_step bytes byte nx t).1 := by
  rcases t with ⟨pos, sq, dq, tm, bc, lc, stack⟩
  simp only at ht hlc hbc
  subst ht; subst hlc; subst hbc
  have h1 := h.1 rfl
  cases sq <;> cases dq <;> cases tm <;>
    simp_all [Scanner.string_step, Spec.scanner_flags_ok] <;>
    split_ifs <;> simp_all

theorem flags_code_step (byte : Nat) (nx : Option Nat) (t : Scanner.StringScanner)
    (ht : t.template_interp_depth = [])
    (hsq : t.in_single_quote = false) (hdq : t.in_double_quote = false)
    (htm : t.in_template = false) (hlc : t.in_line_comment = false)
    (hbc : t.in_block_comment = false) :
    Spec.scanner_flags_ok (Scanner.code_step byte nx t).1 := by
  rcases t with ⟨pos, sq, dq, tm, bc, lc, stack⟩
  simp only at ht hsq hdq htm hlc hbc
  subst ht; subst hsq; subst hdq; subst htm; subst hlc; subst hbc
  simp only [Scanner.code_step]
  split_ifs <;> simp_all [Spec.scanner_flags_ok]

theorem flags_ok_advance (bytes : List Nat) (s : Scanner.StringScanner)
    (h : Spec.scanner_flags_ok s) : Spec.scanner_flags_ok (Scanner.advance bytes s).1 := by
  by_cases hp : bytes.length ≤ s.pos
  · simpa [Scanner.advance, if_pos hp] using h
  · rcases hstack : s.template_interp_depth with _ | ⟨d, rest⟩ <;>
      simp only [Scanner.advance, hstack, if_neg hp] <;>
      split_ifs
    · exact flags_lc_step _ _ (by assumption) h
    · exact flags_bc_step _ _ _ (by assumption) h
    · rename_i h1 h2 h3
      exact flags_string_step bytes _ _ s hstack h3 (by simpa using h1) (by simpa using h2) h
    · rename_i h1 h2 h3
      obtain ⟨⟨hsq, hdq⟩, htm⟩ :
          (s.in_single_quote = false ∧ s.in_double_quote = false) ∧ s.in_template = false := by
        simpa using h3
      exact flags_code_step _ _ s hstack hsq hdq htm (by simpa using h1) (by simpa using h2)
    · exact flags_lc_step _ _ (by assumption) h
    · exact flags_bc_step _ _ _ (by assumption) h
    · exact flags_interp_step bytes _ d rest s hstack h

/-- C9: every state reachable by `advance` from a fresh scanner satisfies the
flag discipline of `Spec.scanner_flags_ok`: with an empty interpolation stack
at most one of the five mode flags is set, and with a non-empty stack the
comment flags are off and at most one of the non-template flags is set
(`in_template` may be additionally held pending). -/
theorem claim_C9 (bytes : List Nat) (start n : Nat) :
    Spec.scanner_flags_ok (Scanner.advanceN bytes n (Scanner.new start)) := by
  have base : Spec.scanner_flags_ok (Scanner.new start) := by
    simp [Scanner.new, Spec.scanner_flags_ok]
  have gen : ∀ m t, Spec.scanner_flags_ok t →
      Spec.scanner_flags_ok (Scanner.advanceN bytes m t) := by
    intro m
    induction m with
    | zero => intro t ht; exact ht
    | succ m ih => intro t ht; exact ih _ (flags_ok_advance bytes t ht)
  exact gen n _ base

theorem getD_eq_get_of_lt (l : List Nat) (i : Nat) (h : i < l.length) :
    l.getD i 0 = l.get ⟨i, h⟩ := by
  rw [List.getD_eq_get]

theorem countP_lt_eq_of_bounds (t : Nat) :
    ∀ (a : List Nat) (k : Nat), k ≤ a.length →
    (∀ i, i < k → a.getD i 0 < t) →
    (∀ i, k ≤ i → i < a.length → ¬ a.getD i 0 < t) →
    a.countP (fun x => decide (x < t)) = k := by
  intro a
  induction a with
  | nil =>
    intro k hk _ _
    simp only [List.length_nil, Nat.le_zero] at hk
    subst hk
    rfl
  | cons x xs ih =>
    intro k hk h1 h2
    cases k with
    | zero =>
      have hx : ¬ x < t := by
        have := h2 0 (Nat.le_refl 0) (by simp)
        simpa using this
      have hxs : xs.countP (fun x => decide (x < t)) = 0 := by
        apply ih 0 (Nat.zero_le _)
        · intro i hi; omega
        · intro i _ hi
          have := h2 (i + 1) (Nat.zero_le _) (by simpa using Nat.succ_lt_succ hi)
          simpa using this
      simp [List.countP_cons, hx, hxs]
    | succ k =>
      have hx : x < t := by
        have := h1 0 (Nat.succ_pos k)
        simpa using this
      have hxs : xs.countP (fun x => decide (x < t)) = k := by
        apply ih k (by simpa using hk)
        · intro i hi
          have := h1 (i + 1) (Nat.succ_lt_succ hi)
          simpa using this
        · intro i hi hlen
          have := h2 (i + 1) (Nat.succ_le_succ hi) (by simpa using Nat.succ_lt_succ hlen)
          simpa using this
      simp [List.countP_cons, hx, hxs]

theorem binary_search_loop_correct (a : List Nat) (t : Nat)
    (hs : ∀ i j, i < j → j < a.length → a.getD i 0 < a.getD j 0) :
    ∀ (fuel lo hi : Nat), hi ≤ a.length → lo ≤ hi → hi - lo ≤ fuel →
    (∀ i, i < lo → a.getD i 0 < t) →
    (∀ i, hi ≤ i → i < a.length → t < a.getD i 0) →
    (Scanner.binary_search_loop a t fuel lo hi =
        Sum.inl (a.countP (fun x => decide (x < t))) ∨
     Scanner.binary_search_loop a t fuel lo hi =
        Sum.inr (a.countP (fun x => decide (x < t)))) := by
  intro fuel
  induction fuel with
  | zero =>
    intro lo hi hhi hlohi hfuel hlow hhigh
    have hle : lo = hi := by omega
    subst hle
    right
    have hcount : a.countP (fun x => decide (x < t)) = lo := by
      refine countP_lt_eq_of_bounds t a lo (le_trans hlohi hhi) hlow ?_
      intro i hi2 hlen
      exact Nat.lt_asymm (hhigh i hi2 hlen)
    rw [hcount]
    rfl
  | succ fuel ih =>
    intro lo hi hhi hlohi hfuel hlow hhigh
    by_cases hlt : lo < hi
    · have hmid1 : lo ≤ (lo + hi) / 2 := by omega
      have hmid2 : (lo + hi) / 2 < hi := by omega
      by_cases hv1 : a.getD ((lo + hi) / 2) 0 < t
      · have hres := ih ((lo + hi) / 2 + 1) hi hhi (by omega) (by omega)
          (by
            intro i hilt
            by_cases hio : i < lo
            · exact hlow i hio
            · by_cases hieq : i = (lo + hi) / 2
              · subst hieq; exact hv1
              · exact lt_trans (hs i ((lo + hi) / 2) (by omega) (by omega)) hv1)
          hhigh
        simp only [Scanner.binary_search_loop]
        rw [if_pos hlt, if_pos hv1]
        exact hres
      · by_cases hv2 : t < a.getD ((lo + hi) / 2) 0
        · have hres := ih lo ((lo + hi) / 2) (by omega) (by omega) (by omega) hlow
            (by
              intro i hile hilen
              by_cases hieq : (lo + hi) / 2 = i
              · subst hieq; exact hv2
              · exact lt_trans hv2 (hs ((lo + hi) / 2) i (by omega) hilen))
          simp only [Scanner.binary_search_loop]
          rw [if_pos hlt, if_neg hv1, if_pos hv2]
          exact hres
        · have hcount : a.countP (fun x => decide (x < t)) = (lo + hi) / 2 := by
            apply countP_lt_eq_of_bounds t a ((lo + hi) / 2) (by omega)
            · intro i hilt
              by_cases hio : i < lo
              · exact hlow i hio
              · have := hs i ((lo + hi) / 2) (by omega) (by omega)
                omega
            · intro i hile hilen
              by_cases hieq : (lo + hi) / 2 = i
              · subst hieq; omega
              · have := hs ((lo + hi) / 2) i (by omega) hilen
                omega
          simp only [Scanner.binary_search_loop]
          rw [if_pos hlt, if_neg hv1, if_neg hv2, hcount]
          left
          rfl
    · have hle : lo = hi := by omega
      subst hle
      right
      have hcount : a.countP (fun x => decide (x < t)) = lo := by
        refine countP_lt_eq_of_bounds t a lo (le_trans hlohi hhi) hlow ?_
        intro i hi2 hlen
        exact Nat.lt_asymm (hhigh i hi2 hlen)
      simp only [Scanner.binary_search_loop]
      rw [if_neg hlt, hcount]

theorem build_line_offsets_sorted (bytes : List Nat) :
    ∀ i j, i < j → j < (Scanner.build_line_offsets bytes).length →
      (Scanner.build_line_offsets bytes).getD i 0 < (Scanner.build_line_offsets bytes).getD j 0 := by
  intro i j hij hj
  have hp : (Scanner.build_line_offsets bytes).Pairwise (· < ·) :=
    (List.pairwise_lt_range bytes.length).filter _
  have hi : i < (Scanner.build_line_offsets bytes).length := lt_trans hij hj
  rw [getD_eq_get_of_lt _ i hi, getD_eq_get_of_lt _ j hj]
  exact List.pairwise_iff_get.mp hp ⟨i, hi⟩ ⟨j, hj⟩ hij

theorem countP_range_count_take (bytes : List Nat) :
    ∀ o, o ≤ bytes.length →
    (List.range o).countP (fun i => decide (bytes.getD i 0 = 10)) = (bytes.take o).count 10 := by
  intro o
  induction o with
  | zero => intro _; simp
  | succ o ih =>
    intro ho
    have ho2 : o < bytes.length := by omega
    rw [List.range_succ, List.countP_append, List.take_succ, List.count_append]
    have hbyte : bytes[o]? = some (bytes.get ⟨o, ho2⟩) := by
      rw [← List.get?_eq_getElem?]
      exact List.get?_eq_get ho2
    have hgd : bytes.getD o 0 = bytes.get ⟨o, ho2⟩ := getD_eq_get_of_lt bytes o ho2
    rw [ih (by omega), hbyte]
    have hcp : List.countP (fun i => decide (bytes.getD i 0 = 10)) [o] =
        if bytes.getD o 0 = 10 then 1 else 0 := by
      by_cases hx : bytes.getD o 0 = 10 <;> simp [List.countP_cons, hx]
    have hct : List.count 10 [bytes.get ⟨o, ho2⟩] =
        if bytes.get ⟨o, ho2⟩ = 10 then 1 else 0 := by
      rw [List.count_singleton]
      by_cases hx : bytes.get ⟨o, ho2⟩ = 10 <;> simp [hx]
    have htl : (some (bytes.get ⟨o, ho2⟩)).toList = [bytes.get ⟨o, ho2⟩] := rfl
    rw [htl, hcp, hct, hgd]

theorem countP_build_eq_count_take (bytes : List Nat) (o : Nat) (ho : o ≤ bytes.length) :
    (Scanner.build_line_offsets bytes).countP (fun x => decide (x < o)) =
      (bytes.take o).count 10 := by
  unfold Scanner.build_line_offsets
  rw [List.countP_filter]
  have hsplit : bytes.length = o + (bytes.length - o) := by omega
  rw [hsplit, List.range_add, List.countP_append]
  have h2 : ((List.range (bytes.length - o)).map (fun x => o + x)).countP
      (fun a => decide (a < o) && decide (bytes.getD a 0 = 10)) = 0 := by
    rw [List.countP_eq_zero]
    intro a ha
    obtain ⟨x, hx, rfl⟩ := List.mem_map.mp ha
    simp only [Bool.and_eq_true, decide_eq_true_eq, not_and]
    intro hlt
    omega
  have h1 : (List.range o).countP (fun a => decide (a < o) && decide (bytes.getD a 0 = 10)) =
      (List.range o).countP (fun i => decide (bytes.getD i 0 = 10)) := by
    apply List.countP_congr
    intro x hx
    have hxo : x < o := List.mem_range.mp hx
    simp [hxo]
  rw [h1, h2, Nat.add_zero]
  exact countP_range_count_take bytes o ho

/-- C5: for every text and every offset `o` with `o ≤ length`, the line index
lookup returns exactly 1 plus the number of newline bytes at offsets strictly
below `o` (an offset landing on a newline byte is assigned to the line ending
at that newline). -/
theorem claim_C5 (bytes : List Nat) (o : Nat) (ho : o ≤ bytes.length) :
    Scanner.offset_to_line (Scanner.build_line_offsets bytes) o =
      1 + (bytes.take o).count 10 := by
  have hs := build_line_offsets_sorted bytes
  have hres := binary_search_loop_correct (Scanner.build_line_offsets bytes) o hs
      ((Scanner.build_line_offsets bytes).length + 1) 0
      (Scanner.build_line_offsets bytes).length le_rfl (Nat.zero_le _) (by omega)
      (fun i hi => absurd hi (Nat.not_lt_zero i))
      (fun i hi hlen => by omega)
  unfold Scanner.offset_to_line
  rcases hres with h | h <;> rw [h] <;> dsimp only <;>
    rw [countP_build_eq_count_take bytes o ho] <;> omega

/-- C5 witness: in the text with bytes of "line1", newline, "line2", newline,
"line3", offset 12 lies on line 3. -/
theorem claim_C5_witness :
    12 ≤ (Re.strBytes "line1\nline2\nline3").length ∧
    Scanner.offset_to_line (Scanner.build_line_offsets (Re.strBytes "line1\nline2\nline3")) 12 = 3 := by
  refine ⟨by decide, ?_⟩
  have h := claim_C5 (Re.strBytes "line1\nline2\nline3") 12 (by decide)
  rw [h]
  decide

theorem sl_advance_pos_gt (bytes : List Nat) (s : SL.StringScanner)
    (h : s.pos < bytes.length) : s.pos < (SL.advance bytes s).1.pos := by
  have hbc : ∀ b nx t, t.pos < (SL.block_comment_step b nx t : SL.StringScanner × Bool).1.pos := by
    intro b nx t; unfold SL.block_comment_step; split_ifs <;> dsimp only <;> omega
  have hin : ∀ b d rest t, t.pos < (SL.interp_step b d rest t : SL.StringScanner × Bool).1.pos := by
    intro b d rest t; unfold SL.interp_step; split_ifs <;> dsimp only <;> omega
  have hst : ∀ b nx t, t.pos < (SL.string_step b nx t : SL.StringScanner × Bool).1.pos := by
    intro b nx t; unfold SL.string_step; split_ifs <;> dsimp only <;> omega
  have hcs : ∀ b nx t, t.pos < (SL.code_step b nx t : SL.StringScanner × Bool).1.pos := by
    intro b nx t; unfold SL.code_step; split_ifs <;> dsimp only <;> omega
  have hp : ¬ bytes.length ≤ s.pos := Nat.not_le.mpr h
  rcases hstack : s.template_interp_depth with _ | ⟨d, rest⟩ <;>
    simp only [SL.advance, hstack, if_neg hp] <;>
    split_ifs <;>
    first
      | exact hbc _ _ s
      | exact hin _ d rest s
      | exact hst _ _ s
      | exact hcs _ _ s

theorem sl_advance_code_close_paren (bytes : List Nat) (s : SL.StringScanner)
    (hctx : SL.in_string_or_comment s = false) (h : s.pos < bytes.length)
    (hb : bytes.getD s.pos 0 = 41) :
    (SL.advance bytes s).1.pos = s.pos + 1 := by
  rcases s with ⟨pos, sq, dq, tm, bc, stack⟩
  simp only [SL.in_string_or_comment, Bool.or_eq_false_iff, Bool.not_eq_false',
    List.isEmpty_iff] at hctx
  obtain ⟨⟨⟨⟨hsq, hdq⟩, htm⟩, hbc⟩, hstk⟩ := hctx
  subst hsq; subst hdq; subst htm; subst hbc; subst hstk
  have hp : ¬ bytes.length ≤ pos := Nat.not_le.mpr h
  simp only [SL.advance, if_neg hp, Bool.false_eq_true, if_false]
  have hb2 : bytes[pos]?.getD 0 = 41 := by simpa using hb
  simp [SL.code_step, hb2]

theorem extract_loop_depth_nonpos (bytes : List Nat) (fuel : Nat) (s : SL.StringScanner)
    (d : Int) (hd : ¬ 0 < d) : SL.extract_loop bytes fuel s d = (s, d) := by
  cases fuel with
  | zero => rfl
  | succ fuel =>
    simp only [SL.extract_loop]
    rw [if_neg]
    intro hcon
    exact hd hcon.2

theorem extract_loop_matching_close (bytes : List Nat) :
    ∀ (fuel : Nat) (s : SL.StringScanner) (depth : Nat), 1 ≤ depth →
      bytes.length < s.pos + fuel →
      ((∀ p, Spec.matching_close bytes fuel s depth = some p →
        (SL.extract_loop bytes fuel s (depth : Int)).2 = 0 ∧
        (SL.extract_loop bytes fuel s (depth : Int)).1.pos = p + 1) ∧
      (Spec.matching_close bytes fuel s depth = none →
        (SL.extract_loop bytes fuel s (depth : Int)).2 ≠ 0)) := by
  intro fuel
  induction fuel with
  | zero =>
    intro s depth hd hlen
    constructor
    · intro p hp
      exact absurd hp (by simp [Spec.matching_close])
    · intro _
      have hz : (SL.extract_loop bytes 0 s (depth : Int)).2 = (depth : Int) := rfl
      rw [hz]
      omega
  | succ fuel ih =>
    intro s depth hd hlen
    by_cases hpos : s.pos < bytes.length
    · have hcond : s.pos < bytes.length ∧ 0 < (depth : Int) := ⟨hpos, by omega⟩
      have hprog := sl_advance_pos_gt bytes s hpos
      obtain ⟨b, hb⟩ : ∃ b, bytes.get? s.pos = some b := ⟨_, List.get?_eq_get hpos⟩
      have hgd : bytes.getD s.pos 0 = b := by
        rw [List.getD_eq_getElem?_getD, ← List.get?_eq_getElem?, hb]
        rfl
      by_cases hctx : SL.in_string_or_comment s = true
      · have hrec := ih (SL.advance bytes s).1 depth hd (by omega)
        constructor
        · intro p hp
          have hp2 : Spec.matching_close bytes fuel (SL.advance bytes s).1 depth = some p := by
            simpa only [Spec.matching_close, if_pos hpos, if_pos hctx] using hp
          have h2 := hrec.1 p hp2
          have hunf : SL.extract_loop bytes (fuel + 1) s (depth : Int) =
              SL.extract_loop bytes fuel (SL.advance bytes s).1 (depth : Int) := by
            simp only [SL.extract_loop, if_pos hcond]
            rw [if_neg (by simp [hctx])]
          rw [hunf]
          exact h2
        · intro hp
          have hp2 : Spec.matching_close bytes fuel (SL.advance bytes s).1 depth = none := by
            simpa only [Spec.matching_close, if_pos hpos, if_pos hctx] using hp
          have h2 := hrec.2 hp2
          have hunf : SL.extract_loop bytes (fuel + 1) s (depth : Int) =
              SL.extract_loop bytes fuel (SL.advance bytes s).1 (depth : Int) := by
            simp only [SL.extract_loop, if_pos hcond]
            rw [if_neg (by simp [hctx])]
          rw [hunf]
          exact h2
      · have hctxf : SL.in_string_or_comment s = false := by
          simpa using hctx
        by_cases hb40 : b = 40
        · subst hb40
          have hrec := ih (SL.advance bytes s).1 (depth + 1) (by omega) (by omega)
          have hunfs : Spec.matching_close bytes (fuel + 1) s depth =
              Spec.matching_close bytes fuel (SL.advance bytes s).1 (depth + 1) := by
            simp only [Spec.matching_close, if_pos hpos, hctxf, Bool.false_eq_true, if_false]
            rw [if_pos (by rw [hgd])]
          have hunfe : SL.extract_loop bytes (fuel + 1) s (depth : Int) =
              SL.extract_loop bytes fuel (SL.advance bytes s).1 ((depth : Int) + 1) := by
            simp only [SL.extract_loop, if_pos hcond]
            rw [if_pos (by simp [hctxf]), if_pos (by rw [hb])]
          rw [hunfs, hunfe]
          have hcast : ((depth : Int) + 1) = ((depth + 1 : Nat) : Int) := by push_cast; ring
          rw [hcast]
          exact hrec
        · by_cases hb41 : b = 41
          · subst hb41
            by_cases hdep1 : depth = 1
            · subst hdep1
              have hclose : Spec.matching_close bytes (fuel + 1) s 1 = some s.pos := by
                simp only [Spec.matching_close, if_pos hpos, hctxf, Bool.false_eq_true, if_false]
                rw [if_neg (by rw [hgd]; decide), if_pos (by rw [hgd])]
                simp
              have hunfe : SL.extract_loop bytes (fuel + 1) s ((1 : Nat) : Int) =
                  SL.extract_loop bytes fuel (SL.advance bytes s).1 (((1 : Nat) : Int) - 1) := by
                simp only [SL.extract_loop]
                rw [if_pos (by exact_mod_cast hcond), if_pos (by simp [hctxf]),
                  if_neg (by rw [hb]; decide), if_pos (by rw [hb])]
              constructor
              · intro p hp
                have hpeq : p = s.pos := by
                  rw [hclose] at hp
                  exact (Option.some.inj hp).symm
                subst hpeq
                rw [hunfe]
                have hzero : (((1 : Nat) : Int) - 1) = 0 := by norm_num
                rw [hzero, extract_loop_depth_nonpos bytes fuel _ 0 (by norm_num)]
                refine ⟨rfl, ?_⟩
                exact sl_advance_code_close_paren bytes s hctxf hpos hgd
              · intro hp
                rw [hclose] at hp
                cases hp
            · have hrec := ih (SL.advance bytes s).1 (depth - 1) (by omega) (by omega)
              have hunfs : Spec.matching_close bytes (fuel + 1) s depth =
                  Spec.matching_close bytes fuel (SL.advance bytes s).1 (depth - 1) := by
                simp only [Spec.matching_close, if_pos hpos, hctxf, Bool.false_eq_true, if_false]
                rw [if_neg (by rw [hgd]; decide), if_pos (by rw [hgd]), if_neg hdep1]
              have hunfe : SL.extract_loop bytes (fuel + 1) s (depth : Int) =
                  SL.extract_loop bytes fuel (SL.advance bytes s).1 ((depth : Int) - 1) := by
                simp only [SL.extract_loop, if_pos hcond]
                rw [if_pos (by simp [hctxf]), if_neg (by rw [hb]; decide), if_pos (by rw [hb])]
              rw [hunfs, hunfe]
              have hcast : ((depth : Int) - 1) = ((depth - 1 : Nat) : Int) := by
                omega
              rw [hcast]
              exact hrec
          · have hrec := ih (SL.advance bytes s).1 depth hd (by omega)
            have hunfs : Spec.matching_close bytes (fuel + 1) s depth =
                Spec.matching_close bytes fuel (SL.advance bytes s).1 depth := by
              simp only [Spec.matching_close, if_pos hpos, hctxf, Bool.false_eq_true, if_false]
              rw [if_neg (by rw [hgd]; exact fun hc => hb40 hc),
                if_neg (by rw [hgd]; exact fun hc => hb41 hc)]
            have hunfe : SL.extract_loop bytes (fuel + 1) s (depth : Int) =
                SL.extract_loop bytes fuel (SL.advance bytes s).1 (depth : Int) := by
              simp only [SL.extract_loop, if_pos hcond]
              rw [if_pos (by simp [hctxf]),
                if_neg (by rw [hb]; intro hc; exact hb40 (Option.some.inj hc)),
                if_neg (by rw [hb]; intro hc; exact hb41 (Option.some.inj hc))]
            rw [hunfs, hunfe]
            exact hrec
    · constructor
      · intro p hp
        exact absurd hp (by simp [Spec.matching_close, hpos])
      · intro _
        have hz : SL.extract_loop bytes (fuel + 1) s (depth : Int) = (s, (depth : Int)) := by
          simp only [SL.extract_loop]
          rw [if_neg (fun hc => hpos hc.1)]
        rw [hz]
        simp only []
        omega

/-- C3: balanced-parenthesis extraction refines the specification: for every
text and start offset, `extract_paren_content` returns exactly the byte
sublist from the start offset up to (excluding) the matching closing
parenthesis computed by the spec-side `Spec.matching_close` (nesting adjusted
only at positions the scanner classifies as code, so parentheses inside
string literals never affect depth), and `none` when there is no matching
closer; in particular, extracting after the opening parenthesis of the text
with bytes of `("(a)", b)` returns exactly the bytes of `"(a)", b` with no
premature truncation. -/
theorem claim_C3 :
    (∀ (bytes : List Nat) (start : Nat),
      SL.extract_paren_content bytes start =
        (Spec.matching_close bytes (bytes.length + 1) (SL.new start) 1).map
          (fun p => (bytes.drop start).take (p - start))) ∧
    SL.extract_paren_content (Re.strBytes "(\"(a)\", b)") 1 =
      some (Re.strBytes "\"(a)\", b") := by
  constructor
  · intro bytes start
    have hcorr := extract_loop_matching_close bytes (bytes.length + 1) (SL.new start) 1
      le_rfl (by simp [SL.new]; omega)
    rw [Nat.cast_one] at hcorr
    rcases hmc : Spec.matching_close bytes (bytes.length + 1) (SL.new start) 1 with _ | p
    · have hne := hcorr.2 hmc
      simp only [SL.extract_paren_content]
      rw [if_neg hne]
      rfl
    · obtain ⟨h0, hpos⟩ := hcorr.1 p hmc
      simp only [SL.extract_paren_content]
      rw [if_pos h0, hpos]
      simp
  · decide

/-- C7: if the input ends before the parenthesis depth returns to zero (the
spec-side matching close does not exist), `extract_paren_content` returns
`none` rather than failing, and a `none` extraction makes `check_match`
leave the rule state (violations and reported lines) unchanged, so the
candidate is skipped silently. -/
theorem claim_C7 :
    (∀ (bytes : List Nat) (start : Nat),
      Spec.matching_close bytes (bytes.length + 1) (SL.new start) 1 = none →
      SL.extract_paren_content bytes start = none) ∧
    (∀ (content line_offsets : List Nat) (file_path msg : String)
        (st : List Rules.Violation × List Nat) (m : Nat × Nat),
      SL.extract_paren_content content m.2 = none →
      Rules.check_match content line_offsets file_path msg st m = st) := by
  constructor
  · intro bytes start hmc
    have hcorr := extract_loop_matching_close bytes (bytes.length + 1) (SL.new start) 1
      le_rfl (by simp [SL.new]; omega)
    rw [Nat.cast_one] at hcorr
    have hne := hcorr.2 hmc
    simp only [SL.extract_paren_content]
    rw [if_neg hne]
  · intro content line_offsets file_path msg st m hnone
    simp only [Rules.check_match]
    rw [hnone]
    split_ifs <;> rfl

/-- C7 witness: the unterminated candidate inside the bytes of
"console.log(password" — the extraction after the opening parenthesis at
offset 12 reports `none` and the corresponding `check_match` call leaves the
empty state unchanged. -/
theorem claim_C7_witness :
    SL.extract_paren_content (Re.strBytes "console.log(password") 12 = none ∧
    Rules.check_match (Re.strBytes "console.log(password") [] "a.ts" Rules.msgConsole
      ([], []) (0, 12) = ([], []) :=
  ⟨claim_C7.1 (Re.strBytes "console.log(password") 12 (by decide),
   claim_C7.2 (Re.strBytes "console.log(password") [] "a.ts" Rules.msgConsole
     ([], []) (0, 12)
     (claim_C7.1 (Re.strBytes "console.log(password") 12 (by decide))⟩

theorem foldl_check_match_all_in_comment (content line_offsets : List Nat)
    (file_path msg : String) :
    ∀ (ms : List (Nat × Nat)) (st : List Rules.Violation × List Nat),
      (∀ m ∈ ms, SL.is_in_comment content m.1 = true) →
      ms.foldl (Rules.check_match content line_offsets file_path msg) st = st := by
  intro ms
  induction ms with
  | nil => intro st _; rfl
  | cons m ms ih =>
    intro st hall
    rw [List.foldl_cons]
    have hm := hall m (List.mem_cons_self m ms)
    have hcm : Rules.check_match content line_offsets file_path msg st m = st := by
      simp only [Rules.check_match]
      rw [if_pos hm]
    rw [hcm]
    exact ih st (fun x hx => hall x (List.mem_cons_of_mem m hx))

/-- C2 (amended): a candidate match whose position the sensitive-logging
rule's `is_in_comment` classifies as inside a comment — which holds for line
comments and for block comments opened on the same line as the match — is
always suppressed: if every console and logger match position is so
classified, the rule returns the empty finding list.  (Block comments
spanning multiple lines are NOT detected, see the counterexample.) -/
theorem claim_C2 (content : List Nat) (file_path : String)
    (hc : ∀ m ∈ Rules.console_matches content, SL.is_in_comment content m.1 = true)
    (hl : ∀ m ∈ Rules.logger_matches content, SL.is_in_comment content m.1 = true) :
    Rules.sensitive_logging_check content file_path = [] := by
  simp only [Rules.sensitive_logging_check]
  rw [foldl_check_match_all_in_comment content _ file_path Rules.msgConsole
      (Rules.console_matches content) ([], []) hc,
    foldl_check_match_all_in_comment content _ file_path Rules.msgLogger
      (Rules.logger_matches content) ([], []) hl]

/-- C2 witness: in the bytes of "// console.log(password);" the single
console match (at offset 3) is inside a line comment and the rule reports
nothing. -/
theorem claim_C2_witness :
    (∀ m ∈ Rules.console_matches (Re.strBytes "// console.log(password);"),
      SL.is_in_comment (Re.strBytes "// console.log(password);") m.1 = true) ∧
    (∀ m ∈ Rules.logger_matches (Re.strBytes "// console.log(password);"),
      SL.is_in_comment (Re.strBytes "// console.log(password);") m.1 = true) ∧
    Rules.sensitive_logging_check (Re.strBytes "// console.log(password);")
      "src/auth/login.ts" = [] :=
  ⟨by decide, by decide, claim_C2 _ "src/auth/login.ts" (by decide) (by decide)⟩

/-- C2 counterexample: in the three-line text "/*", "console.log(password);",
"*/" the pattern occurs only inside a block comment spanning multiple lines,
yet the rule produces a finding (on line 2) instead of the empty list the
claim requires: `is_in_comment` only scans from the start of the match's own
line, so a block comment opened on an earlier line is not seen. -/
theorem claim_C2_counterexample :
    Rules.sensitive_logging_check
        (Re.strBytes "/*" ++ [10] ++ Re.strBytes "console.log(password);" ++ [10] ++ Re.strBytes "*/")
        "src/auth/login.ts" =
      [⟨"sensitive-logging", Rules.Severity.High, Rules.msgConsole, "src/auth/login.ts", some 2⟩] ∧
    Rules.sensitive_logging_check
        (Re.strBytes "/*" ++ [10] ++ Re.strBytes "console.log(password);" ++ [10] ++ Re.strBytes "*/")
        "src/auth/login.ts" ≠ [] := by
  constructor
  · decide
  · decide

theorem check_match_state_ok (content line_offsets : List Nat) (file_path msg : String)
    (st : List Rules.Violation × List Nat) (m : Nat × Nat)
    (h1 : st.1.Pairwise (fun v w => v.line ≠ w.line))
    (h2 : ∀ v ∈ st.1, ∃ n, v.line = some n ∧ n ∈ st.2) :
    (Rules.check_match content line_offsets file_path msg st m).1.Pairwise
        (fun v w => v.line ≠ w.line) ∧
    ∀ v ∈ (Rules.check_match content line_offsets file_path msg st m).1,
      ∃ n, v.line = some n ∧ n ∈ (Rules.check_match content line_offsets file_path msg st m).2 := by
  simp only [Rules.check_match]
  by_cases hic : SL.is_in_comment content m.1 = true
  · rw [if_pos hic]; exact ⟨h1, h2⟩
  · rw [if_neg hic]
    rcases hext : SL.extract_paren_content content m.2 with _ | args
    · exact ⟨h1, h2⟩
    · dsimp only
      by_cases hkw : SL.contains_sensitive_keyword args = true
      · rw [if_pos hkw]
        by_cases hmem : Scanner.offset_to_line line_offsets m.1 ∈ st.2
        · rw [if_pos hmem]; exact ⟨h1, h2⟩
        · rw [if_neg hmem]
          constructor
          · rw [List.pairwise_append]
            refine ⟨h1, List.pairwise_singleton _ _, ?_⟩
            intro a ha b hb
            rw [List.mem_singleton.mp hb]
            obtain ⟨n, hn, hnmem⟩ := h2 a ha
            simp only [hn]
            intro hcon
            apply hmem
            rw [← Option.some.inj hcon]
            exact hnmem
          · intro v hv
            rcases List.mem_append.mp hv with hv | hv
            · obtain ⟨n, hn, hnmem⟩ := h2 v hv
              exact ⟨n, hn, List.mem_cons_of_mem _ hnmem⟩
            · rw [List.mem_singleton.mp hv]
              exact ⟨Scanner.offset_to_line line_offsets m.1, rfl, List.mem_cons_self _ _⟩
      · rw [if_neg hkw]; exact ⟨h1, h2⟩

theorem foldl_check_match_state_ok (content line_offsets : List Nat)
    (file_path msg : String) :
    ∀ (ms : List (Nat × Nat)) (st : List Rules.Violation × List Nat),
      st.1.Pairwise (fun v w => v.line ≠ w.line) →
      (∀ v ∈ st.1, ∃ n, v.line = some n ∧ n ∈ st.2) →
      ((ms.foldl (Rules.check_match content line_offsets file_path msg) st).1.Pairwise
          (fun v w => v.line ≠ w.line) ∧
       ∀ v ∈ (ms.foldl (Rules.check_match content line_offsets file_path msg) st).1,
         ∃ n, v.line = some n ∧
           n ∈ (ms.foldl (Rules.check_match content line_offsets file_path msg) st).2) := by
  intro ms
  induction ms with
  | nil => intro st h1 h2; exact ⟨h1, h2⟩
  | cons m ms ih =>
    intro st h1 h2
    rw [List.foldl_cons]
    have hstep := check_match_state_ok content line_offsets file_path msg st m h1 h2
    exact ih _ hstep.1 hstep.2

/-- C6: the sensitive-logging rule produces at most one finding per source
line (all findings in one run carry pairwise distinct line numbers, the first
finding for a line being the one kept), and on the input bytes of
"console.log(getUser(getSession(token)), secret);" it returns exactly one
finding of severity High — nested calls do not break parenthesis balancing
and the two keywords on the line yield a single finding. -/
theorem claim_C6 :
    (∀ (content : List Nat) (file_path : String),
      (Rules.sensitive_logging_check content file_path).Pairwise
        (fun v w => v.line ≠ w.line)) ∧
    Rules.sensitive_logging_check
        (Re.strBytes "console.log(getUser(getSession(token)), secret);")
        "src/auth/login.ts" =
      [⟨"sensitive-logging", Rules.Severity.High, Rules.msgConsole,
        "src/auth/login.ts", some 1⟩] := by
  constructor
  · intro content file_path
    simp only [Rules.sensitive_logging_check]
    have h1 := foldl_check_match_state_ok content (Scanner.build_line_offsets content)
      file_path Rules.msgConsole (Rules.console_matches content) ([], [])
      (List.Pairwise.nil) (by intro v hv; cases hv)
    have h2 := foldl_check_match_state_ok content (Scanner.build_line_offsets content)
      file_path Rules.msgLogger (Rules.logger_matches content) _ h1.1 h1.2
    exact h2.1
  · decide

/-- C10: any line whose content after trimming leading whitespace begins with
"* " or is exactly "*" is excluded from line-based pattern matching — whatever
the line otherwise contains (in particular live code such as a continuation
line of a multi-line expression): `non_comment_lines` omits its line number,
`find_non_comment_match` never answers that line number, and
`count_non_comment_matches` counts exactly as if the pattern were restricted
to non-comment-marked lines. -/
theorem claim_C10 (content : List Nat) (pat : List Nat → Bool) (i : Nat)
    (hi : i < (Rules.lines content).length)
    (hc : Re.isPrefixAt (Rules.trim_start ((Rules.lines content).get ⟨i, hi⟩)) 0
            (Re.strBytes "* ") = true ∨
          Rules.trim_start ((Rules.lines content).get ⟨i, hi⟩) = Re.strBytes "*") :
    (∀ q ∈ Rules.non_comment_lines content, q.1 ≠ i + 1) ∧
    Rules.find_non_comment_match content pat ≠ some (i + 1) ∧
    Rules.count_non_comment_matches content pat =
      Rules.count_non_comment_matches content
        (fun l => pat l && !Rules.starts_with_comment l) := by
  have hsc : Rules.starts_with_comment ((Rules.lines content).get ⟨i, hi⟩) = true := by
    simp only [Rules.starts_with_comment, Bool.or_eq_true, decide_eq_true_eq]
    rcases hc with h | h
    · exact Or.inl (Or.inr h)
    · exact Or.inr h
  have hmain : ∀ q ∈ Rules.non_comment_lines content, q.1 ≠ i + 1 := by
    intro q hq
    simp only [Rules.non_comment_lines] at hq
    obtain ⟨⟨j, l⟩, hmem, rfl⟩ := List.mem_map.mp hq
    obtain ⟨henum, hpl⟩ := List.mem_filter.mp hmem
    have hjl : (Rules.lines content).get? j = some l := List.mem_enum_iff_get?.mp henum
    intro hcon
    have hji : j = i := by omega
    subst hji
    rw [List.get?_eq_get hi] at hjl
    have hleq : l = (Rules.lines content).get ⟨j, hi⟩ := (Option.some.inj hjl).symm
    rw [hleq] at hpl
    simp only [hsc] at hpl
    cases hpl
  refine ⟨hmain, ?_, ?_⟩
  · intro hcon
    simp only [Rules.find_non_comment_match] at hcon
    rcases hfind : (Rules.non_comment_lines content).find? (fun p => pat p.2) with _ | q
    · rw [hfind] at hcon
      cases hcon
    · rw [hfind] at hcon
      have hqmem := List.mem_of_find?_eq_some hfind
      have := hmain q hqmem
      exact this (Option.some.inj hcon)
  · simp only [Rules.count_non_comment_matches]
    congr 1
    apply List.filter_congr
    intro q hq
    simp only [Rules.non_comment_lines] at hq
    obtain ⟨⟨j, l⟩, hmem, rfl⟩ := List.mem_map.mp hq
    obtain ⟨henum, hpl⟩ := List.mem_filter.mp hmem
    simp only [Bool.not_eq_true'] at hpl
    simp [hpl]

/-- C10 witness: in the two-line text with bytes of "const y = a" and
"  * b;" the second line is live code (a multiplication continuation) whose
trimmed form starts with "* ": its line number 2 is omitted from
`non_comment_lines`, never found, and the count with the always-true pattern
ignores it. -/
theorem claim_C10_witness :
    (∀ q ∈ Rules.non_comment_lines (Re.strBytes "const y = a" ++ [10] ++ Re.strBytes "  * b;"),
      q.1 ≠ 2) ∧
    Rules.find_non_comment_match (Re.strBytes "const y = a" ++ [10] ++ Re.strBytes "  * b;")
      (fun _ => true) ≠ some 2 ∧
    Rules.count_non_comment_matches (Re.strBytes "const y = a" ++ [10] ++ Re.strBytes "  * b;")
      (fun _ => true) =
      Rules.count_non_comment_matches (Re.strBytes "const y = a" ++ [10] ++ Re.strBytes "  * b;")
        (fun l => true && !Rules.starts_with_comment l) :=
  claim_C10 (Re.strBytes "const y = a" ++ [10] ++ Re.strBytes "  * b;") (fun _ => true) 1
    (by decide) (by decide)
